import Mathlib

/-!
Verification of the p2p-file-transfer node (src/src/main.rs) against its
specification.

The development shallowly embeds the repository's own logic — identity
persistence (`keypair`), peer-list parsing (`peers`), and the `main` startup
sequence — as executable Lean functions, and models the swarm/ping core that
the source delegates to the external libp2p library from the specification's
component design (sections 4.3 and 4.4).

Modelling conventions:
- machine bytes are `Nat`s in byte lists; file contents are byte lists
  (identity file) or `String`s (peer list);
- the filesystem is a partial map from path strings to contents;
- randomness (key generation, ping nonces) is passed in as explicit inputs;
- fallible operations return `Except`/`Option`.
-/

/-! ## Identity store (src/src/main.rs, `fn keypair`, lines 67-82) -/

/-- An ed25519 keypair as handled by `libp2p::identity::ed25519::Keypair`:
32 secret-key bytes plus 32 public-key bytes.  Generation
(`Keypair::generate()`) is modelled by passing the freshly generated pair in
as an explicit argument. -/
structure Keypair where
  secret : List Nat
  public : List Nat
deriving DecidableEq

/-- Well-formedness of keypair material as produced by
`ed25519::Keypair::generate()`: 32 secret bytes and 32 public bytes. -/
def Keypair.Wf (kp : Keypair) : Prop :=
  kp.secret.length = 32 ∧ kp.public.length = 32

/-- `ed25519::Keypair::encode`: the 64-byte serialization, secret bytes
followed by public bytes (ed25519-dalek `Keypair::to_bytes`). -/
def Keypair.encode (kp : Keypair) : List Nat :=
  kp.secret ++ kp.public

/-- `libp2p::identity::ed25519::Keypair::decode` (ed25519-dalek
`Keypair::from_bytes`): fails unless the buffer has exactly 64 bytes, then
splits it into secret and public halves.  Dalek additionally rejects a
buffer whose public half fails compressed-Edwards-point decompression;
that check is external cryptography and is elided here, so no theorem
below concludes that a load succeeds for arbitrary stored contents.
Success of decoding is asserted only (a) for encodings of generated
keypairs, whose public halves are valid points by construction, and
(b) at one concrete input whose public half is the all-zero key, which
the real decoder also accepts (y = 0 lies on the curve, since -1 is a
square mod 2^255 - 19).  All other theorems about the load depend only on
which buffer reaches the decoder and on decoding being a function of that
buffer, facts shared with the real decoder. -/
def ed25519Decode (buf : List Nat) : Option Keypair :=
  if buf.length = 64 then some ⟨buf.take 32, buf.drop 32⟩ else none

/-- `PeerId::from(keypair.public())`: a deterministic identifier derived
from the public key alone.  The multihash encoding is external; equality by
byte value is all the claims use, so the identity is modelled as the public
key bytes themselves. -/
structure PeerIdentity where
  bytes : List Nat
deriving DecidableEq

/-- Derive the peer identity from a keypair, as `PeerId::from(kp.public())`. -/
def peerIdentity (kp : Keypair) : PeerIdentity :=
  ⟨kp.public⟩

/-- The `Error` enum of src/src/main.rs (lines 35-41). -/
inductive Err
  | ioFailure
  | decoding
  | multiaddrBad
  | transport
deriving DecidableEq

/-- A filesystem of byte files: path → content, `none` when absent. -/
abbrev FS := String → Option (List Nat)

/-- Writing a file: `std::fs::File::create` + `write`. -/
def FS.write (fs : FS) (path : String) (content : List Nat) : FS :=
  fun q => if q = path then some content else fs q

/-- The buffer state after `let mut keypair = [0; 64];
File::open(path)?.read(&mut keypair)?` in the source: a single `read` call
on a regular file copies the first `min 64 (length content)` bytes into the
zero-initialized 64-byte buffer, and the number of bytes read is never
checked. -/
def readBuf (content : List Nat) : List Nat :=
  content.take 64 ++ List.replicate (64 - content.length) 0

/-- `fn keypair(options: &Options)` of src/src/main.rs lines 67-82, as a
state transformer on the filesystem.  `generated` is the keypair
`ed25519::Keypair::generate()` would produce on this run.  If the path does
not exist, the generated keypair is encoded and written and returned;
otherwise 64 bytes are read into a zeroed buffer and decoded. -/
def loadOrCreate (generated : Keypair) (fs : FS) (path : String) :
    Except Err Keypair × FS :=
  match fs path with
  | none => (Except.ok generated, fs.write path generated.encode)
  | some content =>
      match ed25519Decode (readBuf content) with
      | some kp => (Except.ok kp, fs)
      | none => (Except.error Err.decoding, fs)

/-! ## Peer list loader (src/src/main.rs, `fn peers`, lines 84-94) -/

/-- Split a character list at every occurrence of a separator; the
separator is dropped and empty pieces are kept, as `str::split` does. -/
def splitOnChar (sep : Char) : List Char → List (List Char)
  | [] => [[]]
  | c :: cs =>
      let r := splitOnChar sep cs
      if c = sep then [] :: r
      else
        match r with
        | [] => [[c]]
        | h :: t => (c :: h) :: t

/-- Strip one trailing carriage return, as Rust's `str::lines` does on
`\r\n`-terminated lines. -/
def stripCR (cs : List Char) : List Char :=
  if cs.getLast? = some '\r' then cs.dropLast else cs

/-- Rust's `str::lines()`: split on `\n`; a line that was terminated by
`\n` has a trailing `\r` stripped; a final empty piece (from a trailing
newline, or from the empty string) yields no line; a final piece not
terminated by `\n` is kept verbatim. -/
def rustLines (s : String) : List String :=
  let ps := splitOnChar '\n' s.data
  let last := ps.getLastD []
  (ps.dropLast.map fun l => String.mk (stripCR l)) ++
    (if last = [] then [] else [String.mk last])

/-- One segment of a multiaddr. -/
inductive MProtocol
  | ip4 (a b c d : Nat)
  | tcp (port : Nat)
deriving DecidableEq

/-- A structured network address. -/
structure Multiaddr where
  protocols : List MProtocol
deriving DecidableEq

instance : Inhabited Multiaddr := ⟨⟨[]⟩⟩

/-- Parse a run of decimal digits, accumulating left to right; fails on a
non-digit. -/
def digitsToNatAux : Nat → List Char → Option Nat
  | acc, [] => some acc
  | acc, c :: cs =>
      if c.isDigit then digitsToNatAux (acc * 10 + (c.toNat - 48)) cs
      else none

/-- Parse a nonempty all-digit numeral. -/
def digitsToNat : List Char → Option Nat
  | [] => none
  | cs => digitsToNatAux 0 cs

/-- Parse a dotted-quad IPv4 value. -/
def parseIp4 (v : List Char) : Option MProtocol :=
  match (splitOnChar '.' v).mapM digitsToNat with
  | some [a, b, c, d] =>
      if a ≤ 255 ∧ b ≤ 255 ∧ c ≤ 255 ∧ d ≤ 255 then some (MProtocol.ip4 a b c d)
      else none
  | _ => none

/-- Parse the `/`-separated segments after the leading slash as
protocol/value pairs. -/
def parseSegs : List (List Char) → Option (List MProtocol)
  | [] => some []
  | s :: v :: rest =>
      if s = ['i', 'p', '4'] then do
        let p ← parseIp4 v
        let ps ← parseSegs rest
        pure (p :: ps)
      else if s = ['t', 'c', 'p'] then do
        let n ← digitsToNat v
        if n ≤ 65535 then
          let ps ← parseSegs rest
          pure (MProtocol.tcp n :: ps)
        else
          none
      else none
  | _ => none

/-- Modelled from the spec: the text form of a `Multiaddr` (the parser
itself lives in the external libp2p/multiaddr crate, not in this
repository).  Spec section 6: a sequence of `/protocol/value` segments such
as `/ip4/0.0.0.0/tcp/4001`; unsupported protocol tokens make the whole
address invalid; blank lines are invalid (spec sections 4.2 and 8 treat
blank lines as skipped, hence unparseable). -/
def parseMultiaddr (s : String) : Option Multiaddr :=
  match splitOnChar '/' s.data with
  | [] :: rest =>
      if rest = [] then none
      else (parseSegs rest).map Multiaddr.mk
  | _ => none

/-- A filesystem of text files, for the peer list
(`read_to_string`). -/
abbrev TextFS := String → Option String

/-- `fn peers(options: &Options)` of src/src/main.rs lines 84-94: if the
file exists, parse it line by line, keeping exactly the lines that parse as
a `Multiaddr` (`filter_map(|line| line.parse().ok())`); otherwise return the
empty list. -/
def loadPeers (fs : TextFS) (path : String) : Except Err (List Multiaddr) :=
  match fs path with
  | none => Except.ok []
  | some content => Except.ok ((rustLines content).filterMap parseMultiaddr)

/-! ## Startup sequence (src/src/main.rs, `fn main`, lines 96-134)

`main` is embedded as a trace-producing function.  The results of the
fallible collaborators (identity load, peer-list load, `listen_on`) and the
per-address dial outcomes are passed in as parameters, exactly as `main`
consumes them; the produced value is the `Result` that `main` returns plus
the ordered list of externally visible actions it performed. -/

/-- The externally visible steps of `main`, in program order. -/
inductive MainAction
  | logPeerId
  | logPeers
  | listenStarted
  | dialAttempt (addr : Multiaddr) (succeeded : Bool)
  | pollLoop
deriving DecidableEq

/-- The body of `async fn main` (src/src/main.rs lines 96-134): propagate
an identity-load failure with `?`; log the peer id; propagate a peer-list
failure with `?`; log the peers; bind the listener (`listen_on(..)?`,
failure modelled by `bindOk = false`); dial every peer address in order,
logging success or failure per address and never aborting; then enter the
poll loop and finally return `Ok(())`. -/
def mainRun (kpRes : Except Err Keypair) (peersRes : Except Err (List Multiaddr))
    (bindOk : Bool) (dialOk : Multiaddr → Bool) : Except Err Unit × List MainAction :=
  match kpRes with
  | Except.error e => (Except.error e, [])
  | Except.ok _ =>
      match peersRes with
      | Except.error e => (Except.error e, [MainAction.logPeerId])
      | Except.ok ps =>
          if bindOk then
            (Except.ok (),
              MainAction.logPeerId :: MainAction.logPeers :: MainAction.listenStarted ::
                (ps.map (fun a => MainAction.dialAttempt a (dialOk a)) ++ [MainAction.pollLoop]))
          else
            (Except.error Err.transport, [MainAction.logPeerId, MainAction.logPeers])

/-- The process exit code: Rust's `Termination` for `Result` maps `Ok` to 0
and `Err` to the failure code 1 (after printing the error). -/
def exitCode : Except Err Unit → Nat
  | Except.ok _ => 0
  | Except.error _ => 1

/-- The whole process: structopt first parses the `--listen` flag value as
a `Multiaddr`; an unparseable value makes clap print a diagnostic and exit
with code 1 before `main`'s body runs; otherwise `main` runs and its
`Result` determines the exit code. -/
def runProcess (listenArg : String) (kpRes : Except Err Keypair)
    (peersRes : Except Err (List Multiaddr)) (bindOk : Bool)
    (dialOk : Multiaddr → Bool) : Nat × List MainAction :=
  match parseMultiaddr listenArg with
  | none => (1, [])
  | some _ =>
      let r := mainRun kpRes peersRes bindOk dialOk
      (exitCode r.1, r.2)

/-! ## Ping protocol handler

Modelled from the spec: the ping state machine is implemented by the
external `libp2p::ping` behaviour, not by this repository; the model below
follows spec section 4.4. -/

/-- Ping handler states (spec section 4.4). -/
inductive PingState
  | idle
  | probeSent
  | awaitingEcho
  | failed
deriving DecidableEq

/-- Modelled from the spec: per-connection ping state (spec section 3,
`PingSession`): outstanding nonce, last probe send time, consecutive
failures, current state. -/
structure PingSession where
  nonce : Nat
  sentAt : Nat
  failures : Nat
  state : PingState
deriving DecidableEq

/-- The payload of a `PingResult` event: a round-trip time or a timeout. -/
inductive PingOutcome
  | success (rtt : Nat)
  | timeout
deriving DecidableEq

/-- Modelled from the spec: receiving an echoed payload (spec section 4.4).
A matching echo in state `AwaitingEcho` yields one successful `PingResult`
outcome with rtt = now - send time and moves to `Idle`; an echo whose
payload differs from the outstanding nonce is ignored — no outcome, state
unchanged. -/
def onEcho (s : PingSession) (payload : Nat) (now : Nat) :
    PingSession × List PingOutcome :=
  if s.state = PingState.awaitingEcho then
    if payload = s.nonce then
      ({ s with state := PingState.idle }, [PingOutcome.success (now - s.sentAt)])
    else (s, [])
  else (s, [])

/-- Modelled from the spec: the fixed ping timeout (spec section 4.4,
"default: fixed duration, e.g. 20 time units"). -/
def pingTimeoutLimit : Nat := 20

/-- Modelled from the spec: the once-per-poll timeout check (spec sections
4.4 and 5).  If the session is still awaiting an echo and the timeout has
elapsed it emits one timeout outcome, increments the failure counter and
moves to `Failed`. -/
def checkTimeout (s : PingSession) (now : Nat) : PingSession × List PingOutcome :=
  if s.state = PingState.awaitingEcho ∧ s.sentAt + pingTimeoutLimit ≤ now then
    ({ s with failures := s.failures + 1, state := PingState.failed },
      [PingOutcome.timeout])
  else (s, [])

/-! ## Swarm engine

Modelled from the spec: connection lifecycle and per-poll event production
(spec section 4.3), at the granularity the ordering claims need. -/

/-- Connection lifecycle states (spec section 4.3; the terminal states play
no role in the claims below and closing a connection simply stops its
progress inputs). -/
inductive ConnState
  | connecting
  | authenticating
  | opened
deriving DecidableEq

/-- A managed connection: its identifier, lifecycle state, and its ping
session once the ping stream is open. -/
structure Conn where
  cid : Nat
  st : ConnState
  sess : Option PingSession
deriving DecidableEq

/-- Swarm events (spec section 3), restricted to the two kinds the causal
ordering claim relates. -/
inductive SwarmEvent
  | connectionEstablished (cid : Nat)
  | pingResult (cid : Nat) (outcome : PingOutcome)
deriving DecidableEq

/-- The external conditions one `poll()` pass observes: the current time,
which connections' handshake step completed, which connections received an
echo payload on their ping stream, and the fresh random nonce available to
each connection. -/
structure PollInput where
  now : Nat
  handshakeDone : Nat → Bool
  echo : Nat → Option Nat
  freshNonce : Nat → Nat

/-- Dispatch one poll pass of a connection's ping session: feed it the
received echo payload, if any, then run the once-per-poll timeout check;
every outcome surfaces as a `PingResult` event for this connection. -/
def sessEvents (cid : Nat) (s : PingSession) (echo : Option Nat) (now : Nat) :
    PingSession × List SwarmEvent :=
  let r1 := match echo with
    | some payload => onEcho s payload now
    | none => (s, [])
  let r2 := checkTimeout r1.1 now
  (r2.1, (r1.2 ++ r2.2).map (fun o => SwarmEvent.pingResult cid o))

/-- One poll step of a single connection (spec section 4.3): a connecting
connection whose transport step completed starts authenticating; an
authenticating connection whose handshake completed transitions to open,
emits `ConnectionEstablished`, opens its ping session (probe sent, nonce
recorded, awaiting echo) and only then dispatches stream traffic; an open
connection dispatches stream traffic to its ping session. -/
def stepConn (c : Conn) (inp : PollInput) : Conn × List SwarmEvent :=
  match c.st with
  | ConnState.connecting =>
      if inp.handshakeDone c.cid then
        ({ c with st := ConnState.authenticating }, [])
      else (c, [])
  | ConnState.authenticating =>
      if inp.handshakeDone c.cid then
        let s0 : PingSession :=
          ⟨inp.freshNonce c.cid, inp.now, 0, PingState.awaitingEcho⟩
        let r := sessEvents c.cid s0 (inp.echo c.cid) inp.now
        ({ c with st := ConnState.opened, sess := some r.1 },
          SwarmEvent.connectionEstablished c.cid :: r.2)
      else (c, [])
  | ConnState.opened =>
      match c.sess with
      | some s =>
          let r := sessEvents c.cid s (inp.echo c.cid) inp.now
          ({ c with sess := some r.1 }, r.2)
      | none => (c, [])

/-- One `poll()` pass over the whole live set: advance every connection and
return the events in FIFO order of occurrence. -/
def pollAll : List Conn → PollInput → List Conn × List SwarmEvent
  | [], _ => ([], [])
  | c :: cs, inp =>
      let r1 := stepConn c inp
      let r2 := pollAll cs inp
      (r1.1 :: r2.1, r1.2 ++ r2.2)

/-- The driver loop: repeatedly `poll()`, concatenating the events of
successive passes into one trace. -/
def runSwarm : List Conn → List PollInput → List SwarmEvent
  | _, [] => []
  | cs, inp :: inps =>
      let r := pollAll cs inp
      r.2 ++ runSwarm r.1 inps

/-- Causal well-formedness of an event trace relative to a set `P` of
connection ids already established: reading left to right, a
`ConnectionEstablished` adds its connection id, and every `PingResult` must
be for an already-established id. -/
def Causal : (Nat → Prop) → List SwarmEvent → Prop
  | _, [] => True
  | P, SwarmEvent.connectionEstablished cid :: rest =>
      Causal (fun x => P x ∨ x = cid) rest
  | P, SwarmEvent.pingResult cid _ :: rest => P cid ∧ Causal P rest

/-! ## Concrete inputs used by the witnesses -/

/-- A well-formed generated keypair. -/
def kpW : Keypair := ⟨List.replicate 32 1, List.replicate 32 2⟩

/-- A second well-formed generated keypair, for the reload run. -/
def kpW2 : Keypair := ⟨List.replicate 32 3, List.replicate 32 4⟩

/-- An empty filesystem. -/
def fsEmpty : FS := fun _ => none

/-- A filesystem holding an empty identity file. -/
def fsEmptyIdFile : FS := fun q => if q = "p2p.id" then some [] else none

/-- A filesystem holding a 3-byte identity file. -/
def fsShortIdFile : FS := fun q => if q = "p2p.id" then some [1, 2, 3] else none

/-- A filesystem holding the 64-byte normalization of the 3-byte identity
file. -/
def fsNormIdFile : FS :=
  fun q => if q = "p2p.id" then some (readBuf [1, 2, 3]) else none

/-- A peer-list file mixing parseable, unparseable and blank lines. -/
def peersContentW : String :=
  "/ip4/127.0.0.1/tcp/80\nbogus\n/ip9/bogus\n\n/tcp/443"

/-- A text filesystem holding `peersContentW` at the default path. -/
def peersFsW : TextFS := fun q => if q = "p2p.peers" then some peersContentW else none

/-- A concrete address for dial witnesses. -/
def maW : Multiaddr := ⟨[MProtocol.tcp 80]⟩

/-- A connection mid-handshake, for the ordering witness. -/
def connW : Conn := ⟨0, ConnState.authenticating, none⟩

/-- A poll input whose handshake completes and whose echo payload 7 matches
the fresh nonce 7, for the ordering witness. -/
def inpW : PollInput := ⟨0, fun _ => true, fun _ => some 7, fun _ => 7⟩

/-! ## Helper lemmas -/

lemma readBuf_length (content : List Nat) : (readBuf content).length = 64 := by
  simp only [readBuf, List.length_append, List.length_take, List.length_replicate]
  omega

lemma readBuf_of_length_eq (l : List Nat) (h : l.length = 64) : readBuf l = l := by
  rw [readBuf, h, Nat.sub_self, List.replicate_zero, List.append_nil]
  exact List.take_of_length_le (by omega)

lemma readBuf_idem (content : List Nat) : readBuf (readBuf content) = readBuf content :=
  readBuf_of_length_eq _ (readBuf_length content)

lemma ed25519Decode_readBuf (content : List Nat) :
    ed25519Decode (readBuf content) =
      some ⟨(readBuf content).take 32, (readBuf content).drop 32⟩ := by
  rw [ed25519Decode, if_pos (readBuf_length content)]

lemma encode_length (kp : Keypair) (h : kp.Wf) : kp.encode.length = 64 := by
  simp [Keypair.encode, h.1, h.2]

lemma ed25519Decode_encode (kp : Keypair) (h : kp.Wf) :
    ed25519Decode kp.encode = some kp := by
  obtain ⟨s, p⟩ := kp
  obtain ⟨hs, hp⟩ := h
  simp only at hs hp
  rw [ed25519Decode, Keypair.encode]
  rw [if_pos (by simp [hs, hp])]
  rw [List.take_left' hs, List.drop_left' hs]

/-! ## Claims about the identity store and peer list loader -/

/-- C1: for a keypair generated on first run (no key material at `path`),
persisting it and loading it back yields byte-identical key material —
the loaded keypair is the generated one — and the identical derived
`PeerIdentity`. -/
theorem identity_roundtrip (g g' : Keypair) (fs : FS) (path : String)
    (hwf : g.Wf) (hmissing : fs path = none) :
    (loadOrCreate g fs path).1 = Except.ok g ∧
    (loadOrCreate g' (loadOrCreate g fs path).2 path).1 = Except.ok g ∧
    Except.map peerIdentity ((loadOrCreate g' (loadOrCreate g fs path).2 path).1) =
      Except.ok (peerIdentity g) := by
  have h1 : loadOrCreate g fs path = (Except.ok g, FS.write fs path g.encode) := by
    simp only [loadOrCreate, hmissing]
  have h2 : FS.write fs path g.encode path = some g.encode := by
    simp [FS.write]
  have h3 : loadOrCreate g' (FS.write fs path g.encode) path =
      (Except.ok g, FS.write fs path g.encode) := by
    simp only [loadOrCreate, h2, readBuf_of_length_eq _ (encode_length g hwf),
      ed25519Decode_encode g hwf]
  rw [h1]
  exact ⟨rfl, by rw [h3], by rw [h3]; rfl⟩

/-- C1 witness: a concrete first run on an empty filesystem followed by a
reload. -/
theorem identity_roundtrip_witness :
    (loadOrCreate kpW fsEmpty "p2p.id").1 = Except.ok kpW ∧
    (loadOrCreate kpW2 (loadOrCreate kpW fsEmpty "p2p.id").2 "p2p.id").1 = Except.ok kpW ∧
    Except.map peerIdentity
        ((loadOrCreate kpW2 (loadOrCreate kpW fsEmpty "p2p.id").2 "p2p.id").1) =
      Except.ok (peerIdentity kpW) :=
  identity_roundtrip kpW kpW2 fsEmpty "p2p.id" ⟨by decide, by decide⟩ rfl

/-- C4: when no peer-list file exists at the path, the loader returns `Ok`
with the empty sequence. -/
theorem peers_missing_file_empty (fs : TextFS) (path : String)
    (hmissing : fs path = none) : loadPeers fs path = Except.ok [] := by
  simp only [loadPeers, hmissing]

/-- C4 witness: a concrete empty filesystem. -/
theorem peers_missing_file_empty_witness :
    loadPeers (fun _ => none) "p2p.peers" = Except.ok [] :=
  peers_missing_file_empty (fun _ => none) "p2p.peers" rfl

/-- C5: when an identity file exists, at most 64 bytes of it are read into
a zero-initialized 64-byte buffer with no check of the byte count: the
buffer the decoder receives always has length exactly 64, a file shorter
than 64 bytes has its missing tail read as zero bytes and a file longer
than 64 bytes has everything past the first 64 bytes ignored, whatever
keypair the load returns re-encodes to exactly that zero-padded/truncated
buffer, and the load's outcome is determined by that buffer alone — two
existing files with the same normalized buffer load identically — so the
file's length by itself never causes the load to return an error. -/
theorem identity_read_zero_padded (g : Keypair) (fs : FS) (path : String)
    (content : List Nat) (hfile : fs path = some content) :
    (readBuf content).length = 64 ∧
    (content.length ≤ 64 →
      readBuf content = content ++ List.replicate (64 - content.length) 0) ∧
    (64 ≤ content.length → readBuf content = content.take 64) ∧
    (∀ kp, (loadOrCreate g fs path).1 = Except.ok kp →
      kp.encode = readBuf content) ∧
    (∀ g2 fs2 content2, fs2 path = some content2 →
      readBuf content2 = readBuf content →
      (loadOrCreate g2 fs2 path).1 = (loadOrCreate g fs path).1) := by
  refine ⟨readBuf_length content, ?_, ?_, ?_, ?_⟩
  · intro h
    rw [readBuf, List.take_of_length_le h]
  · intro h
    rw [readBuf, Nat.sub_eq_zero_of_le h, List.replicate_zero, List.append_nil]
  · intro kp hkp
    have h1 : (loadOrCreate g fs path).1 =
        Except.ok ⟨(readBuf content).take 32, (readBuf content).drop 32⟩ := by
      simp only [loadOrCreate, hfile, ed25519Decode_readBuf]
    rw [h1] at hkp
    injection hkp with h2
    rw [← h2, Keypair.encode]
    exact List.take_append_drop 32 (readBuf content)
  · intro g2 fs2 content2 hfile2 hbuf
    simp only [loadOrCreate, hfile, hfile2, hbuf]
    cases ed25519Decode (readBuf content) <;> rfl

/-- C5 witness: a 3-byte identity file — the buffer is its zero-padding,
the loaded keypair re-encodes to it, and the load outcome equals that of
the already-64-byte normalized file. -/
theorem identity_read_zero_padded_witness :
    (readBuf [1, 2, 3]).length = 64 ∧
    readBuf [1, 2, 3] = [1, 2, 3] ++ List.replicate (64 - List.length [1, 2, 3]) 0 ∧
    (Keypair.mk ((readBuf [1, 2, 3]).take 32) ((readBuf [1, 2, 3]).drop 32)).encode =
      readBuf [1, 2, 3] ∧
    (loadOrCreate kpW2 fsNormIdFile "p2p.id").1 =
      (loadOrCreate kpW fsShortIdFile "p2p.id").1 := by
  have T := identity_read_zero_padded kpW fsShortIdFile "p2p.id" [1, 2, 3] rfl
  exact ⟨T.1, T.2.1 (by decide), T.2.2.2.1 _ rfl,
    T.2.2.2.2 kpW2 fsNormIdFile (readBuf [1, 2, 3]) rfl (by decide)⟩

/-- C3 counterexample: the identity file at "p2p.id" holds key material of
length 0, which differs from the expected encoded keypair length 64, yet
the load is accepted — it returns `Ok` with the zero-filled keypair and in
particular does not fail with a decoding error. -/
theorem identity_wrong_length_accepted_cex :
    (loadOrCreate kpW fsEmptyIdFile "p2p.id").1 =
      Except.ok ⟨List.replicate 32 0, List.replicate 32 0⟩ ∧
    ∀ e, (loadOrCreate kpW fsEmptyIdFile "p2p.id").1 ≠ Except.error e := by
  refine ⟨rfl, fun e h => ?_⟩
  rw [show (loadOrCreate kpW fsEmptyIdFile "p2p.id").1 =
      Except.ok ⟨List.replicate 32 0, List.replicate 32 0⟩ from rfl] at h
  exact Except.noConfusion h

/-- C3 amended: when key material exists at the identity path, the loader
never checks the stored byte length — it always decodes the 64-byte
zero-initialized read buffer, so replacing the file by its
zero-padded/truncated 64-byte normalization (a file of exactly the
expected length) yields the identical load outcome: a byte length
different from the expected encoded keypair length is never itself
grounds for rejection, and in particular the empty file is accepted
(the counterexample) rather than rejected as Corrupt. -/
theorem identity_load_no_length_check (g : Keypair) (fs : FS) (path : String)
    (content : List Nat) (hfile : fs path = some content) :
    (readBuf content).length = 64 ∧
    (loadOrCreate g fs path).1 =
      (loadOrCreate g (FS.write fs path (readBuf content)) path).1 := by
  refine ⟨readBuf_length content, ?_⟩
  have h2 : FS.write fs path (readBuf content) path = some (readBuf content) := by
    simp [FS.write]
  simp only [loadOrCreate, hfile, h2, readBuf_idem]
  cases ed25519Decode (readBuf content) <;> rfl

/-- C3 amended witness: the 3-byte identity file and its 64-byte
normalization load identically. -/
theorem identity_load_no_length_check_witness :
    (readBuf [1, 2, 3]).length = 64 ∧
    (loadOrCreate kpW fsShortIdFile "p2p.id").1 =
      (loadOrCreate kpW (FS.write fsShortIdFile "p2p.id" (readBuf [1, 2, 3]))
        "p2p.id").1 :=
  identity_load_no_length_check kpW fsShortIdFile "p2p.id" [1, 2, 3] rfl

/-- C6: the identity store writes the identity file only on first run (no
key material at the path): when the file exists the filesystem is returned
unchanged, and when it is absent the store creates exactly that file —
writing the generated keypair's encoding — and touches no other path. -/
theorem identity_store_side_effects (g : Keypair) (fs : FS) (path : String) :
    (∀ content, fs path = some content → (loadOrCreate g fs path).2 = fs) ∧
    (fs path = none →
      (loadOrCreate g fs path).2 path = some g.encode ∧
      ∀ q, q ≠ path → (loadOrCreate g fs path).2 q = fs q) := by
  constructor
  · intro content hfile
    simp only [loadOrCreate, hfile, ed25519Decode_readBuf]
  · intro hmissing
    refine ⟨?_, fun q hq => ?_⟩
    · simp [loadOrCreate, hmissing, FS.write]
    · simp only [loadOrCreate, hmissing, FS.write]
      rw [if_neg hq]

/-- C6 witness: a subsequent load leaves a concrete filesystem unchanged,
and a first run creates exactly the identity file. -/
theorem identity_store_side_effects_witness :
    (loadOrCreate kpW fsShortIdFile "p2p.id").2 = fsShortIdFile ∧
    (loadOrCreate kpW fsEmpty "p2p.id").2 "p2p.id" = some kpW.encode ∧
    (loadOrCreate kpW fsEmpty "p2p.id").2 "p2p.peers" = fsEmpty "p2p.peers" :=
  ⟨(identity_store_side_effects kpW fsShortIdFile "p2p.id").1 [1, 2, 3] rfl,
   ((identity_store_side_effects kpW fsEmpty "p2p.id").2 rfl).1,
   ((identity_store_side_effects kpW fsEmpty "p2p.id").2 rfl).2 "p2p.peers" (by decide)⟩

/-- The skip-and-keep-order content of `List.filterMap`: the kept elements
are in bijection, order preserved, with the positions whose parse
succeeds.  Stated for an arbitrary partial parse function. -/
lemma filterMap_get_filter {α β : Type} (f : α → Option β) (l : List α) :
    (l.filterMap f).length = (l.filter fun x => (f x).isSome).length ∧
    ∀ i (h1 : i < (l.filterMap f).length)
      (h2 : i < (l.filter fun x => (f x).isSome).length),
      f ((l.filter fun x => (f x).isSome).get ⟨i, h2⟩) =
        some ((l.filterMap f).get ⟨i, h1⟩) := by
  induction l with
  | nil => exact ⟨rfl, fun i h1 h2 => absurd h1 (Nat.not_lt_zero i)⟩
  | cons a t ih =>
      cases hfa : f a with
      | none =>
          have e1 : (a :: t).filterMap f = t.filterMap f := by
            simp [List.filterMap_cons, hfa]
          have e2 : (a :: t).filter (fun x => (f x).isSome) =
              t.filter (fun x => (f x).isSome) := by
            simp [List.filter_cons, hfa]
          rw [e1, e2]
          exact ih
      | some b =>
          have e1 : (a :: t).filterMap f = b :: t.filterMap f := by
            simp [List.filterMap_cons, hfa]
          have e2 : (a :: t).filter (fun x => (f x).isSome) =
              a :: t.filter (fun x => (f x).isSome) := by
            simp [List.filter_cons, hfa]
          rw [e1, e2]
          refine ⟨by simp [ih.1], ?_⟩
          rintro (_ | j) h1 h2
          · simpa using hfa
          · have h1' : j < (t.filterMap f).length := by
              simp only [List.length_cons] at h1
              omega
            have h2' : j < (t.filter (fun x => (f x).isSome)).length := by
              simp only [List.length_cons] at h2
              omega
            simpa using ih.2 j h1' h2'

/-- C2: an existing peer-list file yields `Ok` with exactly as many
addresses as it has parseable lines, and the i-th returned address is the
parse of the i-th parseable line — unparseable lines are silently skipped
and the relative order of the parsed lines is preserved. -/
theorem peers_parse_skip (fs : TextFS) (path : String) (content : String)
    (hfile : fs path = some content) :
    ∃ as, loadPeers fs path = Except.ok as ∧
      as.length = ((rustLines content).filter fun l => (parseMultiaddr l).isSome).length ∧
      ∀ i (h1 : i < as.length)
        (h2 : i < ((rustLines content).filter fun l => (parseMultiaddr l).isSome).length),
        parseMultiaddr
            (((rustLines content).filter fun l => (parseMultiaddr l).isSome).get ⟨i, h2⟩) =
          some (as.get ⟨i, h1⟩) := by
  refine ⟨(rustLines content).filterMap parseMultiaddr, ?_, ?_, ?_⟩
  · simp only [loadPeers, hfile]
  · exact (filterMap_get_filter parseMultiaddr (rustLines content)).1
  · exact (filterMap_get_filter parseMultiaddr (rustLines content)).2

/-- C2 witness: a concrete file with two parseable lines, two unparseable
lines and one blank line. -/
theorem peers_parse_skip_witness :
    ∃ as, loadPeers peersFsW "p2p.peers" = Except.ok as ∧
      as.length =
        ((rustLines peersContentW).filter fun l => (parseMultiaddr l).isSome).length ∧
      ∀ i (h1 : i < as.length)
        (h2 : i <
          ((rustLines peersContentW).filter fun l => (parseMultiaddr l).isSome).length),
        parseMultiaddr
            (((rustLines peersContentW).filter
                fun l => (parseMultiaddr l).isSome).get ⟨i, h2⟩) =
          some (as.get ⟨i, h1⟩) :=
  peers_parse_skip peersFsW "p2p.peers" peersContentW rfl

/-! ## Claims about the startup sequence -/

/-- C7: the process exit discipline of `main` — an unparseable listen
address makes structopt exit with the failure code 1 before anything runs;
a bad keypair file makes `main` return its error immediately, with exit
code 1 and nothing beyond the identity-load attempted; a listen bind
failure makes `main` return its error with exit code 1 after only the two
startup log lines, dialing nothing and never reaching the poll loop; and
when identity load, peer load and bind all succeed the process runs to
clean shutdown with exit code 0.  (1 is Rust's failure exit code, nonzero;
the returned `Err` value is the reported diagnostic.) -/
theorem exit_discipline (listenArg : String) (kpRes : Except Err Keypair)
    (peersRes : Except Err (List Multiaddr)) (bindOk : Bool)
    (dialOk : Multiaddr → Bool) :
    (parseMultiaddr listenArg = none →
      runProcess listenArg kpRes peersRes bindOk dialOk = (1, [])) ∧
    (∀ m, parseMultiaddr listenArg = some m →
      ∀ e, kpRes = Except.error e →
        runProcess listenArg kpRes peersRes bindOk dialOk = (1, [])) ∧
    (∀ m, parseMultiaddr listenArg = some m →
      ∀ kp ps, kpRes = Except.ok kp → peersRes = Except.ok ps → bindOk = false →
        runProcess listenArg kpRes peersRes bindOk dialOk =
          (1, [MainAction.logPeerId, MainAction.logPeers])) ∧
    (∀ m, parseMultiaddr listenArg = some m →
      ∀ kp ps, kpRes = Except.ok kp → peersRes = Except.ok ps → bindOk = true →
        (runProcess listenArg kpRes peersRes bindOk dialOk).1 = 0) := by
  refine ⟨?_, ?_, ?_, ?_⟩
  · intro h
    simp only [runProcess, h]
  · intro m hm e he
    subst he
    simp [runProcess, hm, mainRun, exitCode]
  · intro m hm kp ps hk hp hb
    subst hk; subst hp; subst hb
    simp [runProcess, hm, mainRun, exitCode]
  · intro m hm kp ps hk hp hb
    subst hk; subst hp; subst hb
    simp [runProcess, hm, mainRun, exitCode]

/-- C7 witness: concrete startup runs — a corrupt identity result, a clean
run, and an unparseable listen flag. -/
theorem exit_discipline_witness :
    runProcess "/ip4/0.0.0.0/tcp/0" (Except.error Err.decoding) (Except.ok []) true
        (fun _ => true) = (1, []) ∧
    (runProcess "/ip4/0.0.0.0/tcp/0" (Except.ok kpW) (Except.ok []) true
        (fun _ => true)).1 = 0 ∧
    runProcess "bogus" (Except.ok kpW) (Except.ok []) true (fun _ => true) = (1, []) :=
  ⟨(exit_discipline "/ip4/0.0.0.0/tcp/0" (Except.error Err.decoding) (Except.ok []) true
      (fun _ => true)).2.1 ⟨[MProtocol.ip4 0 0 0 0, MProtocol.tcp 0]⟩ rfl Err.decoding rfl,
   (exit_discipline "/ip4/0.0.0.0/tcp/0" (Except.ok kpW) (Except.ok []) true
      (fun _ => true)).2.2.2 ⟨[MProtocol.ip4 0 0 0 0, MProtocol.tcp 0]⟩ rfl kpW [] rfl rfl rfl,
   (exit_discipline "bogus" (Except.ok kpW) (Except.ok []) true (fun _ => true)).1 rfl⟩

/-- A list ending in a singleton has that element as its last. -/
lemma getLast?_append_singleton {α : Type} (l : List α) (a : α) :
    (l ++ [a]).getLast? = some a := by
  simp

/-- C8: a failed dial is non-fatal — with identity, peers and bind all
fine, `main` still returns `Ok`, every address in the peer list (the
failing one included) gets exactly one dial attempt in list order, the
failing address is dialed exactly as many times as it occurs (no retry),
and the poll loop still runs, as the final step. -/
theorem dial_failure_nonfatal (kp : Keypair) (ps : List Multiaddr)
    (dialOk : Multiaddr → Bool) (a : Multiaddr) (ha : a ∈ ps)
    (hfail : dialOk a = false) :
    (mainRun (Except.ok kp) (Except.ok ps) true dialOk).1 = Except.ok () ∧
    MainAction.dialAttempt a false ∈
      (mainRun (Except.ok kp) (Except.ok ps) true dialOk).2 ∧
    (∀ b, b ∈ ps →
      MainAction.dialAttempt b (dialOk b) ∈
        (mainRun (Except.ok kp) (Except.ok ps) true dialOk).2) ∧
    (mainRun (Except.ok kp) (Except.ok ps) true dialOk).2.count
        (MainAction.dialAttempt a false) = ps.count a ∧
    (mainRun (Except.ok kp) (Except.ok ps) true dialOk).2.getLast? =
      some MainAction.pollLoop := by
  have hrun : mainRun (Except.ok kp) (Except.ok ps) true dialOk =
      (Except.ok (), MainAction.logPeerId :: MainAction.logPeers ::
        MainAction.listenStarted ::
        (ps.map (fun b => MainAction.dialAttempt b (dialOk b)) ++
          [MainAction.pollLoop])) := by
    simp [mainRun]
  have hinj : Function.Injective (fun b => MainAction.dialAttempt b (dialOk b)) := by
    intro x y h
    simp only [MainAction.dialAttempt.injEq] at h
    exact h.1
  have hmem : ∀ b, b ∈ ps →
      MainAction.dialAttempt b (dialOk b) ∈
        (mainRun (Except.ok kp) (Except.ok ps) true dialOk).2 := by
    intro b hb
    rw [hrun]
    exact List.mem_cons_of_mem _ (List.mem_cons_of_mem _ (List.mem_cons_of_mem _
      (List.mem_append_left _ (List.mem_map_of_mem _ hb))))
  refine ⟨by rw [hrun], ?_, hmem, ?_, ?_⟩
  · have := hmem a ha
    rwa [hfail] at this
  · rw [hrun]
    rw [show MainAction.dialAttempt a false = MainAction.dialAttempt a (dialOk a) by
      rw [hfail]]
    have hmap : (ps.map (fun b => MainAction.dialAttempt b (dialOk b))).count
        (MainAction.dialAttempt a (dialOk a)) = ps.count a :=
      List.count_map_of_injective ps _ hinj a
    simp [List.count_cons, List.count_append, hmap]
  · rw [hrun]
    exact getLast?_append_singleton
      ([MainAction.logPeerId, MainAction.logPeers, MainAction.listenStarted] ++
        ps.map (fun b => MainAction.dialAttempt b (dialOk b))) MainAction.pollLoop

/-- C8 witness: a single-address peer list whose dial fails. -/
theorem dial_failure_nonfatal_witness :
    (mainRun (Except.ok kpW) (Except.ok [maW]) true (fun _ => false)).1 = Except.ok () ∧
    MainAction.dialAttempt maW false ∈
      (mainRun (Except.ok kpW) (Except.ok [maW]) true (fun _ => false)).2 ∧
    (∀ b, b ∈ [maW] →
      MainAction.dialAttempt b false ∈
        (mainRun (Except.ok kpW) (Except.ok [maW]) true (fun _ => false)).2) ∧
    (mainRun (Except.ok kpW) (Except.ok [maW]) true (fun _ => false)).2.count
        (MainAction.dialAttempt maW false) = List.count maW [maW] ∧
    (mainRun (Except.ok kpW) (Except.ok [maW]) true (fun _ => false)).2.getLast? =
      some MainAction.pollLoop :=
  dial_failure_nonfatal kpW [maW] (fun _ => false) maW (by decide) rfl

/-! ## Claims about the ping handler and event ordering -/

/-- C9: in state `AwaitingEcho`, an echo whose payload differs from the
outstanding nonce produces no `PingResult` outcome at all — neither
success nor failure — and leaves the session unchanged, still in
`AwaitingEcho`. -/
theorem nonce_mismatch_ignored (s : PingSession) (payload : Nat) (now : Nat)
    (hstate : s.state = PingState.awaitingEcho) (hmismatch : payload ≠ s.nonce) :
    onEcho s payload now = (s, []) ∧
    (onEcho s payload now).1.state = PingState.awaitingEcho := by
  have h : onEcho s payload now = (s, []) := by
    rw [onEcho, if_pos hstate, if_neg hmismatch]
  exact ⟨h, by rw [h]; exact hstate⟩

/-- C9 witness: a session awaiting nonce 5 receives payload 6. -/
theorem nonce_mismatch_ignored_witness :
    onEcho ⟨5, 0, 0, PingState.awaitingEcho⟩ 6 3 =
      (⟨5, 0, 0, PingState.awaitingEcho⟩, []) ∧
    (onEcho ⟨5, 0, 0, PingState.awaitingEcho⟩ 6 3).1.state =
      PingState.awaitingEcho :=
  nonce_mismatch_ignored ⟨5, 0, 0, PingState.awaitingEcho⟩ 6 3 rfl (by decide)

/-- Unfolding of one `pollAll` step. -/
lemma pollAll_cons (c : Conn) (cs : List Conn) (inp : PollInput) :
    pollAll (c :: cs) inp =
      ((stepConn c inp).1 :: (pollAll cs inp).1,
        (stepConn c inp).2 ++ (pollAll cs inp).2) := rfl

/-- Unfolding of one `runSwarm` step. -/
lemma runSwarm_cons (cs : List Conn) (inp : PollInput) (inps : List PollInput) :
    runSwarm cs (inp :: inps) =
      (pollAll cs inp).2 ++ runSwarm (pollAll cs inp).1 inps := rfl

/-- `Causal` is monotone in the set of already-established ids. -/
lemma causal_mono : ∀ (l : List SwarmEvent) (P Q : Nat → Prop),
    (∀ x, P x → Q x) → Causal P l → Causal Q l := by
  intro l
  induction l with
  | nil => intro P Q _ _; trivial
  | cons e rest ih =>
      intro P Q h hc
      cases e with
      | connectionEstablished cid =>
          simp only [Causal] at hc ⊢
          exact ih _ _ (fun x hx => hx.elim (fun hp => Or.inl (h x hp)) Or.inr) hc
      | pingResult cid o =>
          simp only [Causal] at hc ⊢
          exact ⟨h cid hc.1, ih _ _ h hc.2⟩

/-- A list consisting solely of `PingResult`s of an already-established
connection is causal. -/
lemma causal_of_only_ping (P : Nat → Prop) (cid : Nat) (hP : P cid) :
    ∀ l : List SwarmEvent,
      (∀ e ∈ l, ∃ o, e = SwarmEvent.pingResult cid o) → Causal P l := by
  intro l
  induction l with
  | nil => intro _; trivial
  | cons e rest ih =>
      intro h
      obtain ⟨o, rfl⟩ := h e (List.mem_cons_self e rest)
      simp only [Causal]
      exact ⟨hP, ih (fun x hx => h x (List.mem_cons_of_mem _ hx))⟩

/-- Causality composes across concatenation: the second part may rely on
the establishments that occurred in the first. -/
lemma causal_append : ∀ (l1 l2 : List SwarmEvent) (P : Nat → Prop),
    Causal P l1 →
    Causal (fun x => P x ∨ SwarmEvent.connectionEstablished x ∈ l1) l2 →
    Causal P (l1 ++ l2) := by
  intro l1
  induction l1 with
  | nil =>
      intro l2 P _ h2
      simp only [List.nil_append]
      exact causal_mono l2 _ _
        (fun x hx => hx.elim id (fun hx2 => absurd hx2 (List.not_mem_nil _))) h2
  | cons e t ih =>
      intro l2 P h1 h2
      cases e with
      | connectionEstablished cid =>
          simp only [List.cons_append, Causal] at h1 ⊢
          apply ih l2 _ h1
          apply causal_mono l2 _ _ _ h2
          intro x hx
          rcases hx with hp | hm
          · exact Or.inl (Or.inl hp)
          · rcases List.mem_cons.mp hm with he | ht
            · have hx2 : x = cid := by injection he
              exact Or.inl (Or.inr hx2)
            · exact Or.inr ht
      | pingResult cid o =>
          simp only [List.cons_append, Causal] at h1 ⊢
          refine ⟨h1.1, ?_⟩
          apply ih l2 _ h1.2
          apply causal_mono l2 _ _ _ h2
          intro x hx
          rcases hx with hp | hm
          · exact Or.inl hp
          · rcases List.mem_cons.mp hm with he | ht
            · exact absurd he (by simp)
            · exact Or.inr ht

/-- Every event a ping session dispatch produces is a `PingResult` of its
own connection. -/
lemma sessEvents_shape (cid : Nat) (s : PingSession) (echo : Option Nat) (now : Nat) :
    ∀ e ∈ (sessEvents cid s echo now).2, ∃ o, e = SwarmEvent.pingResult cid o := by
  intro e he
  simp only [sessEvents] at he
  rcases List.mem_map.mp he with ⟨o, _, rfl⟩
  exact ⟨o, rfl⟩

/-- Stepping a connection does not change its identifier. -/
lemma stepConn_cid (c : Conn) (inp : PollInput) : (stepConn c inp).1.cid = c.cid := by
  obtain ⟨cid, st, sess⟩ := c
  cases st with
  | connecting => simp only [stepConn]; split <;> rfl
  | authenticating => simp only [stepConn]; split <;> rfl
  | opened => cases sess <;> rfl

/-- A connection's single-step events are causal, provided the connection
was already established whenever it starts the step open. -/
lemma stepConn_causal (c : Conn) (inp : PollInput) (P : Nat → Prop)
    (hopen : c.st = ConnState.opened → P c.cid) :
    Causal P (stepConn c inp).2 := by
  obtain ⟨cid, st, sess⟩ := c
  cases st with
  | connecting =>
      simp only [stepConn]
      split
      · trivial
      · trivial
  | authenticating =>
      simp only [stepConn]
      split
      · simp only [Causal]
        exact causal_of_only_ping _ cid (Or.inr rfl) _ (sessEvents_shape cid _ _ _)
      · trivial
  | opened =>
      cases sess with
      | some s =>
          simp only [stepConn]
          exact causal_of_only_ping _ cid (hopen rfl) _ (sessEvents_shape cid _ _ _)
      | none => trivial

/-- A connection that ends a step open either started it open or emitted
its `ConnectionEstablished` during the step. -/
lemma stepConn_open_src (c : Conn) (inp : PollInput)
    (h : (stepConn c inp).1.st = ConnState.opened) :
    c.st = ConnState.opened ∨
      SwarmEvent.connectionEstablished c.cid ∈ (stepConn c inp).2 := by
  obtain ⟨cid, st, sess⟩ := c
  cases st with
  | connecting =>
      exfalso
      cases hh : inp.handshakeDone cid with
      | true => simp [stepConn, hh] at h
      | false => simp [stepConn, hh] at h
  | authenticating =>
      cases hh : inp.handshakeDone cid with
      | true =>
          right
          simp [stepConn, hh]
      | false =>
          exfalso
          simp [stepConn, hh] at h
  | opened => exact Or.inl rfl

/-- One whole `poll()` pass is causal, and every connection that is open
afterwards was either already established before the pass or had its
`ConnectionEstablished` emitted during it. -/
lemma pollAll_causal (inp : PollInput) (P : Nat → Prop) :
    ∀ cs : List Conn, (∀ c ∈ cs, c.st = ConnState.opened → P c.cid) →
      Causal P (pollAll cs inp).2 ∧
      ∀ c1 ∈ (pollAll cs inp).1, c1.st = ConnState.opened →
        P c1.cid ∨ SwarmEvent.connectionEstablished c1.cid ∈ (pollAll cs inp).2 := by
  intro cs
  induction cs with
  | nil =>
      intro _
      exact ⟨trivial, fun c1 hc1 => absurd hc1 (List.not_mem_nil c1)⟩
  | cons c cs ih =>
      intro hinv
      have hc := hinv c (List.mem_cons_self c cs)
      have hrest : ∀ x ∈ cs, x.st = ConnState.opened → P x.cid :=
        fun x hx => hinv x (List.mem_cons_of_mem c hx)
      have ihr := ih hrest
      rw [pollAll_cons]
      constructor
      · apply causal_append _ _ P (stepConn_causal c inp P hc)
        exact causal_mono _ _ _ (fun x hx => Or.inl hx) ihr.1
      · intro c1 hc1 hop
        rcases List.mem_cons.mp hc1 with rfl | hmem
        · rcases stepConn_open_src c inp hop with hsrc | hsrc
          · exact Or.inl (by rw [stepConn_cid c inp]; exact hc hsrc)
          · right
            rw [stepConn_cid c inp]
            exact List.mem_append_left _ hsrc
        · rcases ihr.2 c1 hmem hop with hp | hm
          · exact Or.inl hp
          · exact Or.inr (List.mem_append_right _ hm)

/-- A whole driver run is causal relative to the initially established
connections. -/
lemma runSwarm_causal : ∀ (inps : List PollInput) (cs : List Conn) (P : Nat → Prop),
    (∀ c ∈ cs, c.st = ConnState.opened → P c.cid) →
    Causal P (runSwarm cs inps) := by
  intro inps
  induction inps with
  | nil => intro cs P _; trivial
  | cons inp inps ih =>
      intro cs P hinv
      rw [runSwarm_cons]
      have hp := pollAll_causal inp P cs hinv
      apply causal_append _ _ P hp.1
      exact ih (pollAll cs inp).1 _ (fun c hcm hop => hp.2 c hcm hop)

/-- In a causal trace, everything left of a `PingResult` contains its
`ConnectionEstablished`, unless the id was established before the trace. -/
lemma causal_split (cid : Nat) (o : PingOutcome) :
    ∀ (l1 : List SwarmEvent) (P : Nat → Prop) (l2 evs : List SwarmEvent),
      Causal P evs → evs = l1 ++ SwarmEvent.pingResult cid o :: l2 →
      P cid ∨ SwarmEvent.connectionEstablished cid ∈ l1 := by
  intro l1
  induction l1 with
  | nil =>
      intro P l2 evs hc he
      subst he
      simp only [List.nil_append, Causal] at hc
      exact Or.inl hc.1
  | cons e t ih =>
      intro P l2 evs hc he
      subst he
      cases e with
      | connectionEstablished c2 =>
          simp only [List.cons_append, Causal] at hc
          rcases ih _ l2 _ hc rfl with h | h
          · rcases h with hp | heq
            · exact Or.inl hp
            · subst heq
              exact Or.inr (List.mem_cons_self _ _)
          · exact Or.inr (List.mem_cons_of_mem _ h)
      | pingResult c2 o2 =>
          simp only [List.cons_append, Causal] at hc
          rcases ih _ l2 _ hc.2 rfl with h | h
          · exact Or.inl h
          · exact Or.inr (List.mem_cons_of_mem _ h)

/-- C10: in a driver run starting with no open connection, wherever the
trace contains a `PingResult` for a connection, the part of the trace
strictly before it contains that connection's `ConnectionEstablished` — so
within each `poll()` the establishment precedes every `PingResult` of the
newly opened connection, and across `poll()` calls no `PingResult` is ever
emitted before its connection's establishment. -/
theorem established_before_ping (cs : List Conn)
    (hfresh : ∀ c ∈ cs, c.st ≠ ConnState.opened) (inps : List PollInput)
    (l1 l2 : List SwarmEvent) (cid : Nat) (o : PingOutcome)
    (hsplit : runSwarm cs inps = l1 ++ SwarmEvent.pingResult cid o :: l2) :
    SwarmEvent.connectionEstablished cid ∈ l1 := by
  have hc : Causal (fun _ => False) (runSwarm cs inps) :=
    runSwarm_causal inps cs (fun _ => False) (fun c hcm hop => (hfresh c hcm) hop)
  rcases causal_split cid o l1 (fun _ => False) l2 _ hc hsplit with h | h
  · exact h.elim
  · exact h

/-- C10 witness: a handshake that completes and whose ping succeeds in the
same poll — the trace is the establishment followed by the ping result, and
the theorem places the establishment before the result. -/
theorem established_before_ping_witness :
    SwarmEvent.connectionEstablished 0 ∈ [SwarmEvent.connectionEstablished 0] :=
  established_before_ping [connW] (by decide) [inpW]
    [SwarmEvent.connectionEstablished 0] [] 0 (PingOutcome.success 0) rfl
